import Mathlib

/-!
Verification of the scheduling and execution engine of the life-manager
task scheduler (`app/task_executor/task_executor.py`, record schema from
`app/task_manager/task_manager.py`).

Modelling conventions:

* Python `datetime` values (timezone-aware, all in the single local zone
  the program runs in) are modelled as Gregorian calendar datetimes with
  second resolution; comparison of two datetimes is comparison of their
  absolute second counts (`DateTime.toSecs`).  Daylight-saving shifts and
  microseconds are outside the model.
* `datetime.now()` is passed in explicitly as a frozen parameter `now`,
  matching the specification's own contract `advance(t, unit, skip, now)`.
* Python floats (execution durations and averages) are modelled as exact
  rationals; `round(x, 3)` is modelled as rounding to a whole number of
  milliseconds (`roundQ3`).
* The `while` loop of `update_next_run` is written with an explicit
  iteration bound; `advanceLoop_ge` shows the bound is large enough that
  the loop always reaches its exit condition on valid datetimes, so the
  bounded loop agrees with the unbounded Python loop there.
* The `ValueError` raised for an unsupported interval is modelled with
  `Except String`; `Except.ok r` means the updated record `r` is handed to
  `TaskManager.edit_task` for persistence, `Except.error` means the
  exception propagates and nothing is persisted.
* The subprocess interface of `run_task` is modelled as an oracle
  `spawn : Bool → ProcResult` giving the outcome of the attempt with the
  given `retry` flag.
-/

/-! ### Gregorian calendar arithmetic -/

/-- Gregorian leap-year rule, as used by `datetime`/`dateutil`. -/
def isLeap (y : Nat) : Bool := y % 4 == 0 && (y % 100 != 0 || y % 400 == 0)

/-- Length of month `m` (1–12) of year `y`; `0` for out-of-range months. -/
def daysInMonth (y : Nat) (m : Nat) : Nat :=
  match m with
  | 1 => 31 | 2 => if isLeap y then 29 else 28 | 3 => 31 | 4 => 30 | 5 => 31
  | 6 => 30 | 7 => 31 | 8 => 31 | 9 => 30 | 10 => 31 | 11 => 30 | 12 => 31
  | _ => 0

def daysInYear (y : Nat) : Nat := if isLeap y then 366 else 365

/-- Total days in all years before year `y` (proleptic Gregorian). -/
def daysBeforeYear : Nat → Nat
  | 0 => 0
  | y + 1 => daysBeforeYear y + daysInYear y

/-- Total days in the months of year `y` strictly before month `m`. -/
def daysBeforeMonth (y : Nat) : Nat → Nat
  | 0 => 0
  | m + 1 => daysBeforeMonth y m + daysInMonth y m

/-- Linear day count of the calendar date `(y, m, d)`. -/
def dayNumber (y m d : Nat) : Nat :=
  daysBeforeYear y + daysBeforeMonth y m + (d - 1)

/-- The calendar date one day after `(y, m, d)`. -/
def nextDay (y m d : Nat) : Nat × Nat × Nat :=
  if d < daysInMonth y m then (y, m, d + 1)
  else if m < 12 then (y, m + 1, 1)
  else (y + 1, 1, 1)

/-- The calendar date `c` days after `(y, m, d)`. -/
def addDays (y m d : Nat) : Nat → Nat × Nat × Nat
  | 0 => (y, m, d)
  | c + 1 =>
    let x := nextDay y m d
    addDays x.1 x.2.1 x.2.2 c

/-- A timezone-aware Python `datetime`, at second resolution, in the fixed
local zone the program runs in. -/
structure DateTime where
  year : Nat
  month : Nat
  day : Nat
  hour : Nat
  minute : Nat
  second : Nat
deriving DecidableEq, Repr

/-- Absolute second count of a datetime; two `datetime` objects compare the
way their `toSecs` values do. -/
def DateTime.toSecs (t : DateTime) : Nat :=
  dayNumber t.year t.month t.day * 86400 + t.hour * 3600 + t.minute * 60 + t.second

/-- `(y, m, d)` is a real calendar date. -/
def ValidDate (y m d : Nat) : Prop :=
  1 ≤ m ∧ m ≤ 12 ∧ 1 ≤ d ∧ d ≤ daysInMonth y m

instance (y m d : Nat) : Decidable (ValidDate y m d) := by
  unfold ValidDate
  infer_instance

/-- The invariant every Python `datetime` object satisfies by construction. -/
def DateTime.Valid (t : DateTime) : Prop :=
  ValidDate t.year t.month t.day ∧ t.hour < 24 ∧ t.minute < 60 ∧ t.second < 60

instance (t : DateTime) : Decidable t.Valid := by
  unfold DateTime.Valid
  infer_instance

/-- `t + timedelta(seconds=n)`: fixed-duration arithmetic.  `timedelta`
with `minutes`/`hours`/`days`/`weeks` arguments is a fixed number of
seconds. -/
def addSeconds (t : DateTime) (n : Nat) : DateTime :=
  let s := t.second + n
  let mi := t.minute + s / 60
  let h := t.hour + mi / 60
  let x := addDays t.year t.month t.day (h / 24)
  ⟨x.1, x.2.1, x.2.2, h % 24, mi % 60, s % 60⟩

/-- `t + relativedelta(months=n)` (dateutil): calendar-aware month
addition; the day is clamped to the length of the target month. -/
def addMonths (t : DateTime) (n : Nat) : DateTime :=
  let idx := t.month - 1 + n
  let y := t.year + idx / 12
  let m := idx % 12 + 1
  ⟨y, m, min t.day (daysInMonth y m), t.hour, t.minute, t.second⟩

/-- `t + relativedelta(years=n)` (dateutil): calendar-aware year addition;
the day is clamped (Feb 29 + 1 year gives Feb 28). -/
def addYears (t : DateTime) (n : Nat) : DateTime :=
  let y := t.year + n
  ⟨y, t.month, min t.day (daysInMonth y t.month), t.hour, t.minute, t.second⟩

/-! ### The recurrence advance of `update_next_run` -/

/-- The six recognized `schedule_interval` units. -/
inductive IntervalUnit where
  | minutes | hours | days | weeks | months | years
deriving DecidableEq, Repr

/-- One iteration of the loop body of `update_next_run`:
`task['next_run'] += relativedelta(**{unit: n})` for months/years,
`task['next_run'] += timedelta(**{unit: n})` otherwise, where
`n = skip_intervals + 1`. -/
def stepOnce (u : IntervalUnit) (n : Nat) (t : DateTime) : DateTime :=
  match u with
  | .months => addMonths t n
  | .years => addYears t n
  | .minutes => addSeconds t (60 * n)
  | .hours => addSeconds t (3600 * n)
  | .days => addSeconds t (86400 * n)
  | .weeks => addSeconds t (604800 * n)

/-- The `while task['next_run'] < now` loop of `update_next_run`, with an
explicit iteration bound (each iteration of the source loop strictly
increases `next_run`, so the bound chosen in `advance` is never hit on
valid datetimes; see `advanceLoop_ge`). -/
def advanceLoop (u : IntervalUnit) (n : Nat) (now : DateTime) : Nat → DateTime → DateTime
  | 0, t => t
  | fuel + 1, t =>
    if t.toSecs < now.toSecs then advanceLoop u n now fuel (stepOnce u n t) else t

/-- The recurrence advance: repeatedly add `(skip_intervals + 1)` units to
`t` while it is before `now`.  `n` is `skip_intervals + 1`. -/
def advance (u : IntervalUnit) (n : Nat) (now t : DateTime) : DateTime :=
  advanceLoop u n now (now.toSecs - t.toSecs + 1) t

/-! ### TaskRecord records and the update pipeline -/

/-- ASCII lowering of one character, the relevant fragment of Python's
`str.lower()` (interval-unit strings are ASCII). -/
def lowerChar : Char → Char
  | 'A' => 'a' | 'B' => 'b' | 'C' => 'c' | 'D' => 'd' | 'E' => 'e' | 'F' => 'f'
  | 'G' => 'g' | 'H' => 'h' | 'I' => 'i' | 'J' => 'j' | 'K' => 'k' | 'L' => 'l'
  | 'M' => 'm' | 'N' => 'n' | 'O' => 'o' | 'P' => 'p' | 'Q' => 'q' | 'R' => 'r'
  | 'S' => 's' | 'T' => 't' | 'U' => 'u' | 'V' => 'v' | 'W' => 'w' | 'X' => 'x'
  | 'Y' => 'y' | 'Z' => 'z' | c => c

/-- Python `s.lower()` on the ASCII strings involved here. -/
def strLower (s : String) : String := String.mk (s.data.map lowerChar)

/-- The membership tests `schedule_interval in ['months', 'years']` and
`schedule_interval in ['minutes', 'hours', 'days', 'weeks']` of
`update_next_run`, on the already-lowered string. -/
def parseUnit (s : String) : Option IntervalUnit :=
  match s with
  | "minutes" => some .minutes
  | "hours" => some .hours
  | "days" => some .days
  | "weeks" => some .weeks
  | "months" => some .months
  | "years" => some .years
  | _ => none

/-- One row of the tasks DataFrame, as handed to `update_task`
(`TaskManager.COLUMNS` plus the `original_index` column added by
`TaskExecutor.__init__`).  Timestamps that the engine never reads are kept
as opaque epoch-second values; `None`/empty cells are `Option.none`. -/
structure TaskRecord where
  project_name : String
  project_path : String
  entry_module : String
  next_run : DateTime
  schedule_interval : String
  skip_intervals : Nat
  status_change_date : Option Nat
  notify_on_run : Nat
  date_created : Option Nat
  status : String
  last_run : Option Nat
  run_count : Nat
  last_exec_time : Option ℚ
  avg_exec_time : Option ℚ
  prev_five_success : String
  last_note : String
  original_index : Nat
deriving DecidableEq, Repr

/-- The `update_next_run` closure of `update_task`: loop while
`next_run < now`; inside the loop body an unrecognized unit raises
`ValueError(f'Unsupported interval: {schedule_interval}')`.  The raise can
only happen when the loop body runs at least once. -/
def update_next_run (now : DateTime) (task : TaskRecord) : Except String TaskRecord :=
  let schedule_interval := strLower task.schedule_interval
  match parseUnit schedule_interval with
  | some u =>
    .ok { task with next_run := advance u (task.skip_intervals + 1) now task.next_run }
  | none =>
    if task.next_run.toSecs < now.toSecs then
      .error ("Unsupported interval: " ++ schedule_interval)
    else
      .ok task

/-- `update_last_run`: current instant as a UTC Unix timestamp (modelled
as the absolute second count of `now`). -/
def update_last_run (now : DateTime) (task : TaskRecord) : TaskRecord :=
  { task with last_run := some now.toSecs }

/-- `update_run_count`: increment the run count by 1. -/
def update_run_count (task : TaskRecord) : TaskRecord :=
  { task with run_count := task.run_count + 1 }

/-- `update_last_exec_time`: overwrite `last_exec_time`. -/
def update_last_exec_time (exec_time : ℚ) (task : TaskRecord) : TaskRecord :=
  { task with last_exec_time := some exec_time }

/-- Python `round(x, 3)`: round to a whole number of milliseconds. -/
def roundQ3 (x : ℚ) : ℚ := (round (1000 * x) : ℤ) / 1000

/-- `update_avg_exec_time`: `avg_exec = task['avg_exec_time'] or 0`, then
`round((avg_exec * (run_count - 1) + last_exec) / run_count, 3)`.  The
pipeline calls it after `update_run_count` and `update_last_exec_time`,
so `run_count` is already incremented and `last_exec_time` is set. -/
def update_avg_exec_time (task : TaskRecord) : TaskRecord :=
  let avg_exec : ℚ := task.avg_exec_time.getD 0
  let last_exec : ℚ := task.last_exec_time.getD 0
  let run_count : ℚ := task.run_count
  { task with
    avg_exec_time := some (roundQ3 ((avg_exec * (run_count - 1) + last_exec) / run_count)) }

/-- Extend the first piece of a split result with a leading character. -/
def consHead (c : Char) : List (List Char) → List (List Char)
  | [] => [[c]]
  | p :: ps => (c :: p) :: ps

/-- Python `s.split('|')` on the underlying character list. -/
def splitBar : List Char → List (List Char)
  | [] => [[]]
  | c :: cs =>
    if c = '|' then [] :: splitBar cs
    else consHead c (splitBar cs)

/-- Python `'|'.join(parts)` on the underlying character lists. -/
def joinBar : List (List Char) → List Char
  | [] => []
  | [p] => p
  | p :: ps => p ++ '|' :: joinBar ps

/-- The string transformation of `update_prev_five_success`:
`response = '0' if stderr else '1'`; split on `'|'`; insert the response
at position 0; delete the oldest entry at position -1; re-join. -/
def prevFiveNext (stderr : String) (prev : String) : String :=
  let response : String := if stderr = "" then "1" else "0"
  let responses_list := splitBar prev.data
  let inserted := response.data :: responses_list
  String.mk (joinBar inserted.dropLast)

/-- `update_prev_five_success` applied to the task record. -/
def update_prev_five_success (stderr : String) (task : TaskRecord) : TaskRecord :=
  { task with prev_five_success := prevFiveNext stderr task.prev_five_success }

/-- `update_last_note`: `stderr or stdout`. -/
def update_last_note (stdout stderr : String) (task : TaskRecord) : TaskRecord :=
  { task with last_note := if stderr = "" then stdout else stderr }

/-- `update_task`: the seven per-field updates in source order, then
`self.task_manager.edit_task(task['original_index'], task)`.  The `.ok`
payload is the record handed to the repository; `.error` means the
`ValueError` from `update_next_run` propagated and nothing was persisted. -/
def update_task (now : DateTime) (task : TaskRecord) (stdout stderr : String)
    (exec_time : ℚ) : Except String TaskRecord :=
  match update_next_run now task with
  | .error e => .error e
  | .ok t1 =>
    let t2 := update_last_run now t1
    let t3 := update_run_count t2
    let t4 := update_last_exec_time exec_time t3
    let t5 := update_avg_exec_time t4
    let t6 := update_prev_five_success stderr t5
    let t7 := update_last_note stdout stderr t6
    .ok t7

/-! ### The task runner -/

/-- Outcome of one `subprocess.run` call: exit code and captured streams. -/
structure ProcResult where
  returncode : Nat
  stdout : String
  stderr : String
deriving DecidableEq, Repr

/-- The recursive call `self.run_task(task, retry=True)` of `run_task`,
unrolled: on the second attempt both the success branch and the
`CalledProcessError` branch return the captured streams of that attempt. -/
def run_task_retry (spawn : Bool → ProcResult) : String × String :=
  let r := spawn true
  if r.returncode = 0 then (r.stdout, r.stderr)
  else (r.stdout, r.stderr)

/-- `run_task(task)` (first attempt, `retry=False`): return the captured
streams on exit code 0, otherwise retry once. -/
def run_task (spawn : Bool → ProcResult) : String × String :=
  let r := spawn false
  if r.returncode = 0 then (r.stdout, r.stderr)
  else run_task_retry spawn

/-! ### The scheduling driver's selection -/

/-- Ascending order on due times, the key of `sort_values(by='next_run')`. -/
def nextRunLE (a b : TaskRecord) : Prop := a.next_run.toSecs ≤ b.next_run.toSecs

instance : DecidableRel nextRunLE := fun a b => Nat.decLe _ _

instance : IsTotal TaskRecord nextRunLE := ⟨fun a b => Nat.le_total _ _⟩

instance : IsTrans TaskRecord nextRunLE := ⟨fun _ _ _ hab hbc => Nat.le_trans hab hbc⟩

/-- The selection of `TaskExecutor.__init__`:
`five_minutes_ahead = datetime.now(...) + timedelta(minutes=5)` and
`tasks_df[tasks_df['next_run'] < five_minutes_ahead].sort_values(by='next_run')`. -/
def executable_tasks (now : DateTime) (tasks : List TaskRecord) : List TaskRecord :=
  let five_minutes_ahead := addSeconds now 300
  List.insertionSort nextRunLE
    (tasks.filter (fun t => t.next_run.toSecs < five_minutes_ahead.toSecs))

/-! ### Facts about the calendar arithmetic -/

theorem daysInMonth_pos (y : Nat) {m : Nat} (h1 : 1 ≤ m) (h2 : m ≤ 12) :
    1 ≤ daysInMonth y m := by
  cases h : isLeap y <;> interval_cases m <;> simp [daysInMonth, h]

theorem daysBeforeMonth_succ (y m : Nat) :
    daysBeforeMonth y (m + 1) = daysBeforeMonth y m + daysInMonth y m := rfl

theorem daysBeforeMonth_13 (y : Nat) : daysBeforeMonth y 13 = daysInYear y := by
  cases h : isLeap y <;>
    simp [daysBeforeMonth, daysInMonth, daysInYear, h]

theorem daysBeforeMonth_mono (y : Nat) {m m' : Nat} (h : m ≤ m') :
    daysBeforeMonth y m ≤ daysBeforeMonth y m' := by
  induction m', h using Nat.le_induction with
  | base => exact Nat.le_refl _
  | succ n hn ih =>
    exact Nat.le_trans ih (by rw [daysBeforeMonth_succ]; exact Nat.le_add_right _ _)

theorem daysBeforeYear_succ (y : Nat) :
    daysBeforeYear (y + 1) = daysBeforeYear y + daysInYear y := rfl

theorem daysBeforeYear_mono {y y' : Nat} (h : y ≤ y') :
    daysBeforeYear y ≤ daysBeforeYear y' := by
  induction y', h using Nat.le_induction with
  | base => exact Nat.le_refl _
  | succ n hn ih =>
    exact Nat.le_trans ih (by rw [daysBeforeYear_succ]; exact Nat.le_add_right _ _)

theorem daysInYear_pos (y : Nat) : 1 ≤ daysInYear y := by
  unfold daysInYear
  split <;> norm_num

theorem dayNumber_lt_yearEnd {y m d : Nat} (h : ValidDate y m d) :
    dayNumber y m d < daysBeforeYear (y + 1) := by
  obtain ⟨h1, h2, h3, h4⟩ := h
  have e1 := daysBeforeMonth_succ y m
  have e2 : daysBeforeMonth y (m + 1) ≤ daysBeforeMonth y 13 :=
    daysBeforeMonth_mono y (by omega)
  have e3 := daysBeforeMonth_13 y
  have e4 := daysInYear_pos y
  have e5 := daysBeforeYear_succ y
  unfold dayNumber
  omega

theorem dayNumber_lt_of_lt {y m d y' m' d' : Nat} (h : ValidDate y m d)
    (h' : ValidDate y' m' d')
    (hlt : y < y' ∨ (y = y' ∧ (m < m' ∨ (m = m' ∧ d < d')))) :
    dayNumber y m d < dayNumber y' m' d' := by
  have hb := dayNumber_lt_yearEnd h
  obtain ⟨h1, h2, h3, h4⟩ := h
  obtain ⟨h1', h2', h3', h4'⟩ := h'
  rcases hlt with hy | ⟨rfl, hm | ⟨rfl, hd⟩⟩
  · have hY : daysBeforeYear (y + 1) ≤ daysBeforeYear y' := daysBeforeYear_mono (by omega)
    unfold dayNumber at hb ⊢
    omega
  · have e1 := daysBeforeMonth_succ y m
    have e2 : daysBeforeMonth y (m + 1) ≤ daysBeforeMonth y m' :=
      daysBeforeMonth_mono y (by omega)
    unfold dayNumber
    omega
  · unfold dayNumber
    omega

theorem nextDay_valid_dayNumber {y m d : Nat} (h : ValidDate y m d) :
    ValidDate (nextDay y m d).1 (nextDay y m d).2.1 (nextDay y m d).2.2 ∧
    dayNumber (nextDay y m d).1 (nextDay y m d).2.1 (nextDay y m d).2.2 =
      dayNumber y m d + 1 := by
  obtain ⟨h1, h2, h3, h4⟩ := h
  unfold nextDay
  split
  case isTrue hlt =>
    dsimp only
    refine ⟨⟨h1, h2, by omega, by omega⟩, ?_⟩
    unfold dayNumber
    omega
  case isFalse hge =>
    have hd : d = daysInMonth y m := by omega
    split
    case isTrue hm12 =>
      dsimp only
      refine ⟨⟨by omega, by omega, Nat.le_refl 1, daysInMonth_pos y (by omega) (by omega)⟩, ?_⟩
      have e1 := daysBeforeMonth_succ y m
      unfold dayNumber
      omega
    case isFalse hm12 =>
      have hm : m = 12 := by omega
      subst hm
      dsimp only
      have h31 : daysInMonth (y + 1) 1 = 31 := rfl
      refine ⟨⟨Nat.le_refl 1, by omega, Nat.le_refl 1, by omega⟩, ?_⟩
      have e13 := daysBeforeMonth_13 y
      have e12 : daysBeforeMonth y 13 = daysBeforeMonth y 12 + daysInMonth y 12 :=
        daysBeforeMonth_succ y 12
      have eY := daysBeforeYear_succ y
      have e0 : daysBeforeMonth (y + 1) 1 = 0 := rfl
      unfold dayNumber
      omega

theorem addDays_valid_dayNumber :
    ∀ (c y m d : Nat), ValidDate y m d →
      ValidDate (addDays y m d c).1 (addDays y m d c).2.1 (addDays y m d c).2.2 ∧
      dayNumber (addDays y m d c).1 (addDays y m d c).2.1 (addDays y m d c).2.2 =
        dayNumber y m d + c := by
  intro c
  induction c with
  | zero => exact fun y m d h => ⟨h, rfl⟩
  | succ k ih =>
    intro y m d h
    have hn := nextDay_valid_dayNumber h
    have he : addDays y m d (k + 1) =
        addDays (nextDay y m d).1 (nextDay y m d).2.1 (nextDay y m d).2.2 k := rfl
    rw [he]
    have hk := ih (nextDay y m d).1 (nextDay y m d).2.1 (nextDay y m d).2.2 hn.1
    exact ⟨hk.1, by rw [hk.2, hn.2]; omega⟩

theorem addSeconds_valid_toSecs (t : DateTime) (n : Nat)
    (h : ValidDate t.year t.month t.day) :
    (addSeconds t n).Valid ∧ (addSeconds t n).toSecs = t.toSecs + n := by
  have key := addDays_valid_dayNumber
    ((t.hour + (t.minute + (t.second + n) / 60) / 60) / 24) t.year t.month t.day h
  have e1 := Nat.div_add_mod (t.second + n) 60
  have e2 := Nat.div_add_mod (t.minute + (t.second + n) / 60) 60
  have e3 := Nat.div_add_mod (t.hour + (t.minute + (t.second + n) / 60) / 60) 24
  constructor
  · exact ⟨key.1, Nat.mod_lt _ (by norm_num), Nat.mod_lt _ (by norm_num),
      Nat.mod_lt _ (by norm_num)⟩
  · show _ = t.toSecs + n
    unfold DateTime.toSecs at *
    have hdn := key.2
    simp only [addSeconds]
    omega

theorem toSecs_lt_toSecs {a b : DateTime} (ha : a.Valid)
    (hd : dayNumber a.year a.month a.day < dayNumber b.year b.month b.day) :
    a.toSecs < b.toSecs := by
  obtain ⟨_, hh, hm, hs⟩ := ha
  unfold DateTime.toSecs
  omega

theorem addMonths_valid (t : DateTime) (n : Nat) (h : t.Valid) :
    (addMonths t n).Valid := by
  obtain ⟨⟨h1, h2, h3, h4⟩, hh, hm, hs⟩ := h
  have hmod : (t.month - 1 + n) % 12 < 12 := Nat.mod_lt _ (by norm_num)
  have hp : 1 ≤ daysInMonth (t.year + (t.month - 1 + n) / 12) ((t.month - 1 + n) % 12 + 1) :=
    daysInMonth_pos _ (by omega) (by omega)
  unfold addMonths DateTime.Valid ValidDate
  dsimp only
  exact ⟨⟨by omega, by omega, le_min h3 hp, min_le_right _ _⟩, hh, hm, hs⟩

theorem addMonths_toSecs_lt (t : DateTime) (n : Nat) (h : t.Valid) (hn : 1 ≤ n) :
    t.toSecs < (addMonths t n).toSecs := by
  have hv2 := (addMonths_valid t n h).1
  apply toSecs_lt_toSecs h
  have e := Nat.div_add_mod (t.month - 1 + n) 12
  have hmod : (t.month - 1 + n) % 12 < 12 := Nat.mod_lt _ (by norm_num)
  obtain ⟨⟨h1, h2, h3, h4⟩, _, _, _⟩ := h
  apply dayNumber_lt_of_lt ⟨h1, h2, h3, h4⟩ hv2
  unfold addMonths
  dsimp only
  omega

theorem addYears_valid (t : DateTime) (n : Nat) (h : t.Valid) :
    (addYears t n).Valid := by
  obtain ⟨⟨h1, h2, h3, h4⟩, hh, hm, hs⟩ := h
  exact ⟨⟨h1, h2, le_min h3 (daysInMonth_pos _ h1 h2), min_le_right _ _⟩, hh, hm, hs⟩

theorem addYears_toSecs_lt (t : DateTime) (n : Nat) (h : t.Valid) (hn : 1 ≤ n) :
    t.toSecs < (addYears t n).toSecs := by
  have hv2 := (addYears_valid t n h).1
  apply toSecs_lt_toSecs h
  obtain ⟨⟨h1, h2, h3, h4⟩, _, _, _⟩ := h
  apply dayNumber_lt_of_lt ⟨h1, h2, h3, h4⟩ hv2
  unfold addYears
  dsimp only
  omega

theorem stepOnce_valid_lt (u : IntervalUnit) (n : Nat) (t : DateTime)
    (h : t.Valid) (hn : 1 ≤ n) :
    (stepOnce u n t).Valid ∧ t.toSecs < (stepOnce u n t).toSecs := by
  cases u with
  | months => exact ⟨addMonths_valid t n h, addMonths_toSecs_lt t n h hn⟩
  | years => exact ⟨addYears_valid t n h, addYears_toSecs_lt t n h hn⟩
  | minutes =>
    have := addSeconds_valid_toSecs t (60 * n) h.1
    refine ⟨this.1, ?_⟩
    show t.toSecs < (addSeconds t (60 * n)).toSecs
    omega
  | hours =>
    have := addSeconds_valid_toSecs t (3600 * n) h.1
    refine ⟨this.1, ?_⟩
    show t.toSecs < (addSeconds t (3600 * n)).toSecs
    omega
  | days =>
    have := addSeconds_valid_toSecs t (86400 * n) h.1
    refine ⟨this.1, ?_⟩
    show t.toSecs < (addSeconds t (86400 * n)).toSecs
    omega
  | weeks =>
    have := addSeconds_valid_toSecs t (604800 * n) h.1
    refine ⟨this.1, ?_⟩
    show t.toSecs < (addSeconds t (604800 * n)).toSecs
    omega

theorem advanceLoop_ge (u : IntervalUnit) (n : Nat) (now : DateTime) (hn : 1 ≤ n) :
    ∀ (fuel : Nat) (t : DateTime), t.Valid → now.toSecs - t.toSecs < fuel →
      (advanceLoop u n now fuel t).Valid ∧
      now.toSecs ≤ (advanceLoop u n now fuel t).toSecs := by
  intro fuel
  induction fuel with
  | zero => exact fun t ht hf => absurd hf (by omega)
  | succ k ih =>
    intro t ht hf
    show ((if t.toSecs < now.toSecs then advanceLoop u n now k (stepOnce u n t) else t)).Valid ∧
      now.toSecs ≤ (if t.toSecs < now.toSecs then advanceLoop u n now k (stepOnce u n t) else t).toSecs
    by_cases hlt : t.toSecs < now.toSecs
    · rw [if_pos hlt]
      have hs := stepOnce_valid_lt u n t ht hn
      exact ih (stepOnce u n t) hs.1 (by omega)
    · rw [if_neg hlt]
      exact ⟨ht, by omega⟩

theorem advance_valid_ge (u : IntervalUnit) (n : Nat) (now t : DateTime)
    (hn : 1 ≤ n) (ht : t.Valid) :
    (advance u n now t).Valid ∧ now.toSecs ≤ (advance u n now t).toSecs :=
  advanceLoop_ge u n now hn _ t ht (by omega)

theorem advance_of_ge (u : IntervalUnit) (n : Nat) (now t : DateTime)
    (h : now.toSecs ≤ t.toSecs) : advance u n now t = t := by
  unfold advance
  rw [Nat.sub_eq_zero_of_le h]
  show (if t.toSecs < now.toSecs then advanceLoop u n now 0 (stepOnce u n t) else t) = t
  rw [if_neg (Nat.not_lt.mpr h)]

/-! ### Facts about the `prev_five_success` string surgery -/

theorem splitBar_ne_nil (s : List Char) : splitBar s ≠ [] := by
  induction s with
  | nil => simp [splitBar]
  | cons c cs ih =>
    simp only [splitBar]
    by_cases hc : c = '|'
    · simp [hc]
    · rw [if_neg hc]
      cases hsp : splitBar cs with
      | nil => simp [consHead]
      | cons p ps => simp [consHead]

theorem mem_splitBar_no_bar (s : List Char) : ∀ p ∈ splitBar s, '|' ∉ p := by
  induction s with
  | nil =>
    intro p hp
    simp [splitBar] at hp
    simp [hp]
  | cons c cs ih =>
    intro p hp
    simp only [splitBar] at hp
    by_cases hc : c = '|'
    · rw [if_pos hc] at hp
      rcases List.mem_cons.mp hp with h | h
      · simp [h]
      · exact ih p h
    · rw [if_neg hc] at hp
      cases hsp : splitBar cs with
      | nil => exact absurd hsp (splitBar_ne_nil cs)
      | cons q qs =>
        rw [hsp] at hp
        simp only [consHead] at hp
        rcases List.mem_cons.mp hp with h | h
        · subst h
          intro hmem
          rcases List.mem_cons.mp hmem with h' | h'
          · exact hc h'.symm
          · exact ih q (by rw [hsp]; exact List.mem_cons_self q qs) h'
        · exact ih p (by rw [hsp]; exact List.mem_cons_of_mem q h)

theorem splitBar_no_bar {p : List Char} (h : '|' ∉ p) : splitBar p = [p] := by
  induction p with
  | nil => rfl
  | cons c cs ih =>
    have hc : c ≠ '|' := fun hh => h (by simp [hh])
    have hcs : '|' ∉ cs := fun hh => h (List.mem_cons_of_mem c hh)
    simp only [splitBar]
    rw [if_neg hc, ih hcs]
    rfl

theorem splitBar_append (p rest : List Char) (h : '|' ∉ p) :
    splitBar (p ++ '|' :: rest) = p :: splitBar rest := by
  induction p with
  | nil =>
    show splitBar ('|' :: rest) = [] :: splitBar rest
    simp [splitBar]
  | cons c cs ih =>
    have hc : c ≠ '|' := fun hh => h (by simp [hh])
    have hcs : '|' ∉ cs := fun hh => h (List.mem_cons_of_mem c hh)
    have hcons := ih hcs
    show splitBar (c :: (cs ++ '|' :: rest)) = (c :: cs) :: splitBar rest
    simp only [splitBar]
    rw [if_neg hc, hcons]
    rfl

theorem splitBar_joinBar (l : List (List Char)) (hne : l ≠ [])
    (hbar : ∀ p ∈ l, '|' ∉ p) : splitBar (joinBar l) = l := by
  induction l with
  | nil => exact absurd rfl hne
  | cons p ps ih =>
    cases ps with
    | nil => exact splitBar_no_bar (hbar p (by simp))
    | cons q qs =>
      have he : joinBar (p :: q :: qs) = p ++ '|' :: joinBar (q :: qs) := rfl
      rw [he, splitBar_append _ _ (hbar p (by simp))]
      rw [ih (by simp) (fun r hr => hbar r (List.mem_cons_of_mem p hr))]

theorem prevFiveNext_splitBar (err s : String) :
    splitBar (prevFiveNext err s).data =
      (if err = "" then ['1'] else ['0']) :: (splitBar s.data).dropLast := by
  cases hsp : splitBar s.data with
  | nil => exact absurd hsp (splitBar_ne_nil _)
  | cons q qs =>
    have hresp : (if err = "" then ("1" : String) else "0").data
        = (if err = "" then ['1'] else ['0']) := by
      by_cases herr : err = "" <;> simp [herr]
    unfold prevFiveNext
    dsimp only
    rw [hresp, hsp]
    have hd : ((if err = "" then ['1'] else ['0']) :: q :: qs).dropLast
        = (if err = "" then ['1'] else ['0']) :: (q :: qs).dropLast := rfl
    rw [hd]
    rw [splitBar_joinBar _ (by simp) ?_]
    intro r hr
    rcases List.mem_cons.mp hr with h | h
    · subst h
      by_cases herr : err = "" <;> simp [herr]
    · have hsub : (q :: qs).dropLast ⊆ q :: qs := List.dropLast_subset _
      exact mem_splitBar_no_bar s.data r (by rw [hsp]; exact hsub h)

theorem foldl_prevFiveNext_fail (errs : List String) :
    ∀ (s : String), (∀ e ∈ errs, e ≠ "") → (splitBar s.data).length = 5 →
      splitBar ((errs.foldl (fun acc e => prevFiveNext e acc) s).data)
        = List.replicate (min errs.length 5) ['0']
            ++ (splitBar s.data).take (5 - errs.length) := by
  induction errs with
  | nil =>
    intro s _ h5
    have htk : (splitBar s.data).take 5 = splitBar s.data :=
      List.take_of_length_le (by omega)
    simpa using htk.symm
  | cons e rest ih =>
    intro s hfail h5
    have he : e ≠ "" := hfail e (by simp)
    have hstep := prevFiveNext_splitBar e s
    rw [if_neg he] at hstep
    have h5' : (splitBar (prevFiveNext e s).data).length = 5 := by
      rw [hstep]
      simp [List.length_dropLast, h5]
    have hrec := ih (prevFiveNext e s) (fun x hx => hfail x (List.mem_cons_of_mem e hx)) h5'
    show splitBar ((rest.foldl (fun acc x => prevFiveNext x acc) (prevFiveNext e s)).data) = _
    rw [hrec, hstep]
    simp only [List.length_cons]
    by_cases hbig : 5 ≤ rest.length
    · rw [min_eq_right hbig, min_eq_right (by omega)]
      rw [(show 5 - rest.length = 0 by omega), (show 5 - (rest.length + 1) = 0 by omega)]
      simp
    · push_neg at hbig
      rw [min_eq_left (by omega), min_eq_left (by omega)]
      have hdl : (splitBar s.data).dropLast = (splitBar s.data).take 4 := by
        rw [List.dropLast_eq_take, h5]
      rw [(show 5 - rest.length = (5 - (rest.length + 1)) + 1 by omega)]
      rw [List.take_succ_cons, hdl, List.take_take]
      rw [min_eq_left (by omega)]
      rw [List.replicate_succ']
      simp

/-! ### Decomposition of `update_task` -/

theorem update_next_run_ok_fields {now : DateTime} {task t1 : TaskRecord}
    (h : update_next_run now task = Except.ok t1) :
    t1 = { task with next_run := t1.next_run } := by
  simp only [update_next_run] at h
  cases hp : parseUnit (strLower task.schedule_interval) with
  | some u =>
    rw [hp] at h
    dsimp only at h
    injection h with h2
    subst h2
    rfl
  | none =>
    rw [hp] at h
    dsimp only at h
    by_cases hlt : task.next_run.toSecs < now.toSecs
    · rw [if_pos hlt] at h
      exact absurd h (by simp)
    · rw [if_neg hlt] at h
      injection h with h2
      subst h2
      rfl

theorem update_task_ok {now : DateTime} {task : TaskRecord} {out err : String}
    {d : ℚ} {t' : TaskRecord} (h : update_task now task out err d = Except.ok t') :
    ∃ t1, update_next_run now task = Except.ok t1 ∧
      t' = update_last_note out err (update_prev_five_success err (update_avg_exec_time
        (update_last_exec_time d (update_run_count (update_last_run now t1))))) := by
  unfold update_task at h
  cases hnr : update_next_run now task with
  | error e =>
    rw [hnr] at h
    exact absurd h (by simp)
  | ok t1 =>
    rw [hnr] at h
    dsimp only at h
    refine ⟨t1, rfl, ?_⟩
    injection h with h2
    exact h2.symm

/-! ### Concrete records used to instantiate the theorems -/

/-- A reference instant: year 2, Jan 1, midnight. -/
def now0 : DateTime := ⟨2, 1, 1, 0, 0, 0⟩

/-- A datetime one minute before `now0`. -/
def dtPast : DateTime := ⟨1, 12, 31, 23, 59, 0⟩

/-- A minutely task whose due time is exactly `now0`. -/
def taskA : TaskRecord :=
  { project_name := "demo", project_path := "/tmp/demo", entry_module := "main.py",
    next_run := ⟨2, 1, 1, 0, 0, 0⟩, schedule_interval := "Minutes", skip_intervals := 0,
    status_change_date := none, notify_on_run := 1, date_created := none,
    status := "Active", last_run := none, run_count := 0, last_exec_time := none,
    avg_exec_time := none, prev_five_success := "-|-|-|-|-", last_note := "",
    original_index := 0 }

/-! ### C1 -/

/-- C1 counterexample: a task due exactly at `now` (`next_run = now`, unit
Minutes, skip 0).  The loop guard `next_run < now` is already false, so
`update_next_run` returns the record unchanged and the resulting `next_run`
is NOT strictly greater than `now`, refuting the claim as stated. -/
theorem update_next_run_at_now_unchanged :
    taskA.next_run.toSecs ≤ now0.toSecs ∧
    parseUnit (strLower taskA.schedule_interval) = some IntervalUnit.minutes ∧
    taskA.skip_intervals = 0 ∧
    update_next_run now0 taskA = Except.ok taskA ∧
    ¬ now0.toSecs < taskA.next_run.toSecs := by
  refine ⟨by decide, by decide, rfl, rfl, by decide⟩

/-- C1 (amended): for every task with a valid due time, a recognized
interval unit and any skip count, `update_next_run` succeeds and leaves
`next_run` greater than or equal to `now` (strict inequality fails exactly
when the stored or advanced due time lands on `now` itself, because the
loop guard compares with `<`). -/
theorem update_next_run_ge_now (now : DateTime) (task : TaskRecord) (u : IntervalUnit)
    (hv : task.next_run.Valid)
    (hu : parseUnit (strLower task.schedule_interval) = some u)
    (hle : task.next_run.toSecs ≤ now.toSecs) :
    update_next_run now task =
      Except.ok { task with
        next_run := advance u (task.skip_intervals + 1) now task.next_run } ∧
    now.toSecs ≤ (advance u (task.skip_intervals + 1) now task.next_run).toSecs := by
  constructor
  · simp only [update_next_run, hu]
  · exact (advance_valid_ge u (task.skip_intervals + 1) now task.next_run (by omega) hv).2

/-- Witness for C1 (amended) at the concrete overdue task `taskB1`. -/
theorem update_next_run_ge_now_witness :
    update_next_run now0 { taskA with next_run := dtPast } =
      Except.ok { { taskA with next_run := dtPast } with
        next_run := advance IntervalUnit.minutes
          ({ taskA with next_run := dtPast }.skip_intervals + 1) now0
          { taskA with next_run := dtPast }.next_run } ∧
    now0.toSecs ≤ (advance IntervalUnit.minutes
        ({ taskA with next_run := dtPast }.skip_intervals + 1) now0
        { taskA with next_run := dtPast }.next_run).toSecs :=
  update_next_run_ge_now now0 { taskA with next_run := dtPast } IntervalUnit.minutes
    (by decide) (by decide) (by decide)

/-! ### C2 -/

/-- C2: for any valid due time `t ≤ now`, recognized unit and skip count,
the recurrence advance is a fixed point of itself: applying it again to
its own output with the same `now` returns the output unchanged. -/
theorem advance_fixed_point (u : IntervalUnit) (skip : Nat) (t now : DateTime)
    (hv : t.Valid) (hle : t.toSecs ≤ now.toSecs) :
    advance u (skip + 1) now (advance u (skip + 1) now t) =
      advance u (skip + 1) now t :=
  advance_of_ge u (skip + 1) now _
    (advance_valid_ge u (skip + 1) now t (by omega) hv).2

/-- Witness for C2 at a concrete overdue minutely task. -/
theorem advance_fixed_point_witness :
    advance IntervalUnit.minutes (0 + 1) now0
        (advance IntervalUnit.minutes (0 + 1) now0 dtPast) =
      advance IntervalUnit.minutes (0 + 1) now0 dtPast :=
  advance_fixed_point IntervalUnit.minutes 0 dtPast now0 (by decide) (by decide)

/-! ### C3 -/

/-- C3: the advance uses fixed-duration arithmetic for Minutes, Hours,
Days and Weeks (each step adds the exact corresponding number of seconds),
and calendar-aware arithmetic for Months and Years (the result is always a
valid date); in particular advancing a Monthly task due on Jan 31 by one
interval yields the last valid day of February (29 in a leap year, 28
otherwise), never an invalid date. -/
theorem stepOnce_calendar (t : DateTime) (k : Nat) (hv : t.Valid) :
    ((stepOnce IntervalUnit.minutes k t).toSecs = t.toSecs + 60 * k ∧
     (stepOnce IntervalUnit.hours k t).toSecs = t.toSecs + 3600 * k ∧
     (stepOnce IntervalUnit.days k t).toSecs = t.toSecs + 86400 * k ∧
     (stepOnce IntervalUnit.weeks k t).toSecs = t.toSecs + 604800 * k) ∧
    ((stepOnce IntervalUnit.months k t).Valid ∧
     (stepOnce IntervalUnit.years k t).Valid) ∧
    (t.month = 1 → t.day = 31 →
      stepOnce IntervalUnit.months 1 t =
        ⟨t.year, 2, daysInMonth t.year 2, t.hour, t.minute, t.second⟩ ∧
      daysInMonth t.year 2 = (if isLeap t.year then 29 else 28)) := by
  refine ⟨⟨(addSeconds_valid_toSecs t (60 * k) hv.1).2,
    (addSeconds_valid_toSecs t (3600 * k) hv.1).2,
    (addSeconds_valid_toSecs t (86400 * k) hv.1).2,
    (addSeconds_valid_toSecs t (604800 * k) hv.1).2⟩,
    ⟨addMonths_valid t k hv, addYears_valid t k hv⟩, ?_⟩
  intro hm hd
  have hfeb : daysInMonth t.year 2 = (if isLeap t.year then 29 else 28) := rfl
  refine ⟨?_, hfeb⟩
  show addMonths t 1 = _
  unfold addMonths
  dsimp only
  rw [hm, hd]
  have hmin : min (31 : Nat) (daysInMonth t.year 2) = daysInMonth t.year 2 := by
    rw [hfeb]
    cases isLeap t.year <;> simp
  norm_num [hmin]

/-- Witness for C3: Jan 31 of leap year 4 advanced by one month lands on
Feb 29 of year 4 (month-end clamping). -/
theorem stepOnce_calendar_witness :
    stepOnce IntervalUnit.months 1 ⟨4, 1, 31, 5, 6, 7⟩ =
      ({ year := 4, month := 2, day := 29, hour := 5, minute := 6, second := 7 } :
        DateTime) := by
  have h := (stepOnce_calendar ⟨4, 1, 31, 5, 6, 7⟩ 1 (by decide)).2.2 rfl rfl
  rw [h.1]
  decide

/-! ### C4 -/

/-- C4: `run_task` spawns at most two attempts: on exit 0 of the first
attempt it returns that attempt's streams; on a non-zero first exit it
retries exactly once and returns the second attempt's captured stdout and
stderr (in particular on a second non-zero exit it returns the second
attempt's streams, not the first's); and the result depends only on the
two attempts' outcomes, so no further spawn can occur. -/
theorem run_task_retry_once (spawn : Bool → ProcResult) :
    ((spawn false).returncode = 0 →
      run_task spawn = ((spawn false).stdout, (spawn false).stderr)) ∧
    ((spawn false).returncode ≠ 0 →
      run_task spawn = ((spawn true).stdout, (spawn true).stderr)) ∧
    (∀ spawn2 : Bool → ProcResult, spawn2 false = spawn false →
      spawn2 true = spawn true → run_task spawn2 = run_task spawn) := by
  refine ⟨?_, ?_, ?_⟩
  · intro h
    show (if (spawn false).returncode = 0 then ((spawn false).stdout, (spawn false).stderr)
      else run_task_retry spawn) = _
    rw [if_pos h]
  · intro h
    show (if (spawn false).returncode = 0 then ((spawn false).stdout, (spawn false).stderr)
      else run_task_retry spawn) = _
    rw [if_neg h]
    show (if (spawn true).returncode = 0 then ((spawn true).stdout, (spawn true).stderr)
      else ((spawn true).stdout, (spawn true).stderr)) = _
    split <;> rfl
  · intro spawn2 h1 h2
    show (if (spawn2 false).returncode = 0 then ((spawn2 false).stdout, (spawn2 false).stderr)
        else run_task_retry spawn2) =
      (if (spawn false).returncode = 0 then ((spawn false).stdout, (spawn false).stderr)
        else run_task_retry spawn)
    unfold run_task_retry
    rw [h1, h2]

/-- A process that fails with exit 1 on the first attempt and exit 3 on
the retry, capturing different streams each time. -/
def spawnFF : Bool → ProcResult :=
  fun b => if b then ⟨3, "out2", "err2"⟩ else ⟨1, "out1", "err1"⟩

/-- Witness for C4: with both attempts failing, `run_task` returns the
second attempt's streams. -/
theorem run_task_retry_once_witness : run_task spawnFF = ("out2", "err2") := by
  have h := (run_task_retry_once spawnFF).2.1 (by decide)
  rw [h]
  rfl

/-! ### C5 -/

/-- C5 is refuted by the code: a process that exits with status 0 but has
written to stderr makes `run_task` return that captured stderr verbatim
(the success branch returns `result.stdout, result.stderr`), so the error
text is not empty on success, contrary to both the claim and the
function's own docstring. -/
theorem run_task_success_nonempty_stderr :
    run_task (fun _ => { returncode := 0, stdout := "out", stderr := "warn" }) =
      ("out", "warn") ∧ ("warn" : String) ≠ "" := by
  exact ⟨rfl, by decide⟩

/-! ### C6 -/

/-- A task with an unrecognized interval unit, due exactly at `now0`. -/
def taskBad : TaskRecord := { taskA with schedule_interval := "Fortnights" }

/-- C6 counterexample: with an unrecognized unit but `next_run = now` the
loop body of `update_next_run` never runs, so no error is raised; the
update completes, bookkeeping fields change (`run_count` becomes 1,
`prev_five_success` rolls) and the record is handed to the repository,
refuting the claim that an unrecognized unit always aborts loudly. -/
theorem update_task_bad_unit_not_due_persists :
    parseUnit (strLower taskBad.schedule_interval) = none ∧
    (update_task now0 taskBad "out" "" 1).map TaskRecord.run_count = Except.ok 1 ∧
    (update_task now0 taskBad "out" "" 1).map TaskRecord.prev_five_success =
      Except.ok "1|-|-|-|-" := by
  exact ⟨by decide, rfl, rfl⟩

/-- C6 (amended): if the unit is unrecognized AND the task is overdue
(`next_run` strictly before `now`, so the loop body runs), `update_task`
raises `ValueError('Unsupported interval: ...')` before any field is
assigned, the exception propagates, and no record is handed to the
repository (atomic abort). -/
theorem update_task_bad_unit_due_errors (now : DateTime) (task : TaskRecord)
    (out err : String) (d : ℚ)
    (hu : parseUnit (strLower task.schedule_interval) = none)
    (hlt : task.next_run.toSecs < now.toSecs) :
    update_task now task out err d =
      Except.error ("Unsupported interval: " ++ strLower task.schedule_interval) := by
  have hnr : update_next_run now task =
      Except.error ("Unsupported interval: " ++ strLower task.schedule_interval) := by
    simp only [update_next_run, hu, if_pos hlt]
  unfold update_task
  rw [hnr]

/-- Witness for C6 (amended): the unrecognized-unit task, overdue by one
minute, makes `update_task` fail with the `ValueError` message. -/
theorem update_task_bad_unit_due_errors_witness :
    update_task now0 { taskBad with next_run := dtPast } "o" "e" 1 =
      Except.error ("Unsupported interval: "
        ++ strLower { taskBad with next_run := dtPast }.schedule_interval) :=
  update_task_bad_unit_due_errors now0 { taskBad with next_run := dtPast } "o" "e" 1
    (by decide) (by decide)

/-! ### C7 -/

/-- C7: after a run of duration `d`, `update_task` sets `avg_exec_time` to
`round((old_avg * run_count_before + d) / run_count_after, 3)` with the
unset old average treated as 0 and `run_count_after = run_count_before + 1`;
after a first run of a duration already at millisecond precision the
average equals that duration, and after a second run of 4.0s following an
average of 2.0s over one run it equals 3.0. -/
theorem update_task_avg_formula (now : DateTime) (task : TaskRecord)
    (out err : String) (d : ℚ) (t' : TaskRecord)
    (h : update_task now task out err d = Except.ok t') :
    t'.avg_exec_time =
      some (roundQ3 ((task.avg_exec_time.getD 0 * (task.run_count : ℚ) + d)
        / ((task.run_count : ℚ) + 1))) ∧
    (task.run_count = 0 → roundQ3 d = d → t'.avg_exec_time = some d) ∧
    (task.run_count = 1 → task.avg_exec_time = some 2 → d = 4 →
      t'.avg_exec_time = some 3) := by
  obtain ⟨t1, hnr, ht'⟩ := update_task_ok h
  have hfields := update_next_run_ok_fields hnr
  have havg : t1.avg_exec_time = task.avg_exec_time := by rw [hfields]
  have hrc : t1.run_count = task.run_count := by rw [hfields]
  subst ht'
  have hmain : (update_last_note out err (update_prev_five_success err (update_avg_exec_time
      (update_last_exec_time d (update_run_count (update_last_run now t1)))))).avg_exec_time =
      some (roundQ3 ((task.avg_exec_time.getD 0 * (task.run_count : ℚ) + d)
        / ((task.run_count : ℚ) + 1))) := by
    show some (roundQ3 ((t1.avg_exec_time.getD 0 * (((t1.run_count + 1 : Nat) : ℚ) - 1)
        + (Option.some d).getD 0) / ((t1.run_count + 1 : Nat) : ℚ))) = _
    rw [havg, hrc]
    have hcast : (((task.run_count + 1 : Nat) : ℚ) - 1) = (task.run_count : ℚ) := by
      push_cast
      ring
    rw [hcast]
    have hcast2 : (((task.run_count + 1 : Nat) : ℚ)) = ((task.run_count : ℚ) + 1) := by
      push_cast
      ring
    rw [hcast2]
    rfl
  refine ⟨hmain, ?_, ?_⟩
  · intro h0 hround
    rw [hmain, h0]
    norm_num [hround]
  · intro h1 h2 h4
    rw [hmain, h1, h2, h4]
    norm_num [roundQ3, round_eq]

/-- The record produced (and persisted) by a first failing run of `taskA`
with duration 2.0s and stderr "bad". -/
def runA : TaskRecord := (update_task now0 taskA "o" "bad" 2).toOption.getD taskA

/-- Witness for C7: after the first run of duration 2.0s (already at
millisecond precision) the stored average equals that duration. -/
theorem update_task_avg_formula_witness :
    update_task now0 taskA "o" "bad" 2 = Except.ok runA ∧
    runA.avg_exec_time = some 2 :=
  ⟨rfl, (update_task_avg_formula now0 taskA "o" "bad" 2 runA rfl).2.1 rfl
    (by norm_num [roundQ3, round_eq])⟩

/-! ### C9 -/

/-- C9: when `prev_five_success` holds exactly 5 entries, `update_task`
prepends the success marker `1` if the error text is empty and the failure
marker `0` otherwise, drops the oldest (last) entry, and leaves exactly 5
entries; and any `n ≥ 5` consecutive failing updates leave five failure
markers. -/
theorem update_task_prev_five (now : DateTime) (task : TaskRecord)
    (out err : String) (d : ℚ) (t' : TaskRecord)
    (h : update_task now task out err d = Except.ok t')
    (h5 : (splitBar task.prev_five_success.data).length = 5) :
    (splitBar t'.prev_five_success.data =
        (if err = "" then ['1'] else ['0'])
          :: (splitBar task.prev_five_success.data).dropLast ∧
      (splitBar t'.prev_five_success.data).length = 5) ∧
    (∀ (errs : List String) (s : String), (∀ e ∈ errs, e ≠ "") →
      5 ≤ errs.length → (splitBar s.data).length = 5 →
      splitBar ((errs.foldl (fun acc e => prevFiveNext e acc) s).data) =
        List.replicate 5 ['0']) := by
  constructor
  · obtain ⟨t1, hnr, ht'⟩ := update_task_ok h
    have hfields := update_next_run_ok_fields hnr
    have hprev : t1.prev_five_success = task.prev_five_success := by rw [hfields]
    subst ht'
    have hproj : (update_last_note out err (update_prev_five_success err
        (update_avg_exec_time (update_last_exec_time d (update_run_count
          (update_last_run now t1)))))).prev_five_success =
        prevFiveNext err task.prev_five_success := by
      show prevFiveNext err t1.prev_five_success = _
      rw [hprev]
    rw [hproj, prevFiveNext_splitBar]
    refine ⟨rfl, ?_⟩
    simp [List.length_dropLast, h5]
  · intro errs s hfail hlen hs5
    have hfold := foldl_prevFiveNext_fail errs s hfail hs5
    rw [hfold, min_eq_right hlen, (show 5 - errs.length = 0 by omega)]
    simp

/-- Witness for C9: the failing update of `taskA` (stderr "bad") prepends
a failure marker and keeps exactly 5 entries. -/
theorem update_task_prev_five_witness :
    splitBar runA.prev_five_success.data =
      (if ("bad" : String) = "" then ['1'] else ['0'])
        :: (splitBar taskA.prev_five_success.data).dropLast ∧
    (splitBar runA.prev_five_success.data).length = 5 :=
  (update_task_prev_five now0 taskA "o" "bad" 2 runA rfl (by decide)).1

/-! ### C10 -/

/-- C10: a successful `update_task` changes only the bookkeeping fields;
every other field of the record handed to the repository (including the
identifying `original_index`) is exactly the input task's. -/
theorem update_task_frame (now : DateTime) (task : TaskRecord) (out err : String)
    (d : ℚ) (t' : TaskRecord) (h : update_task now task out err d = Except.ok t') :
    t'.project_name = task.project_name ∧ t'.project_path = task.project_path ∧
    t'.entry_module = task.entry_module ∧
    t'.schedule_interval = task.schedule_interval ∧
    t'.skip_intervals = task.skip_intervals ∧ t'.status = task.status ∧
    t'.status_change_date = task.status_change_date ∧
    t'.notify_on_run = task.notify_on_run ∧
    t'.date_created = task.date_created ∧
    t'.original_index = task.original_index := by
  obtain ⟨t1, hnr, ht'⟩ := update_task_ok h
  have hfields := update_next_run_ok_fields hnr
  subst ht'
  rw [hfields]
  exact ⟨rfl, rfl, rfl, rfl, rfl, rfl, rfl, rfl, rfl, rfl⟩

/-- Witness for C10 at the concrete run of `taskA`. -/
theorem update_task_frame_witness :
    runA.project_name = taskA.project_name ∧
    runA.project_path = taskA.project_path ∧
    runA.entry_module = taskA.entry_module ∧
    runA.schedule_interval = taskA.schedule_interval ∧
    runA.skip_intervals = taskA.skip_intervals ∧ runA.status = taskA.status ∧
    runA.status_change_date = taskA.status_change_date ∧
    runA.notify_on_run = taskA.notify_on_run ∧
    runA.date_created = taskA.date_created ∧
    runA.original_index = taskA.original_index :=
  update_task_frame now0 taskA "o" "bad" 2 runA rfl

/-! ### C8 -/

/-- C8: one wake cycle selects exactly the tasks whose `next_run` is
strictly before `now + 5` minutes — membership does not consult `status`,
so a Paused task due inside the horizon is still selected, and a task due
at or after the horizon is not — and the processing list is sorted
ascending by `next_run`. -/
theorem executable_tasks_selection (now : DateTime) (tasks : List TaskRecord)
    (hv : ValidDate now.year now.month now.day) :
    (∀ t : TaskRecord, t ∈ executable_tasks now tasks ↔
        t ∈ tasks ∧ t.next_run.toSecs < now.toSecs + 300) ∧
    List.Sorted nextRunLE (executable_tasks now tasks) := by
  have hhor : (addSeconds now 300).toSecs = now.toSecs + 300 :=
    (addSeconds_valid_toSecs now 300 hv).2
  constructor
  · intro t
    unfold executable_tasks
    dsimp only
    rw [(List.perm_insertionSort nextRunLE _).mem_iff, List.mem_filter]
    rw [decide_eq_true_eq, hhor]
  · exact List.sorted_insertionSort nextRunLE _

/-- Three demo tasks: due one minute after `now0`, ten minutes after
`now0`, and one minute before `now0` (the last one Paused). -/
def tSoon : TaskRecord := { taskA with next_run := ⟨2, 1, 1, 0, 1, 0⟩ }

def tFar : TaskRecord := { taskA with next_run := ⟨2, 1, 1, 0, 10, 0⟩ }

def tPast : TaskRecord := { taskA with next_run := dtPast, status := "Paused" }

/-- Witness for C8: with tasks due at `now0+1min`, `now0+10min` and
`now0-1min` (Paused), the 5-minute cycle selects the overdue Paused task
and the soon task but not the far one, and lists them in ascending
due-time order. -/
theorem executable_tasks_selection_witness :
    tPast ∈ executable_tasks now0 [tSoon, tFar, tPast] ∧
    tSoon ∈ executable_tasks now0 [tSoon, tFar, tPast] ∧
    (tFar ∈ executable_tasks now0 [tSoon, tFar, tPast] → False) ∧
    List.Sorted nextRunLE (executable_tasks now0 [tSoon, tFar, tPast]) := by
  have h := executable_tasks_selection now0 [tSoon, tFar, tPast] (by decide)
  refine ⟨?_, ?_, ?_, h.2⟩
  · exact (h.1 tPast).mpr ⟨by decide, by decide⟩
  · exact (h.1 tSoon).mpr ⟨by decide, by decide⟩
  · intro hmem
    exact absurd ((h.1 tFar).mp hmem).2 (by decide)
